import Mathlib

/-!
Verification development for the breadcrumb transform stage
(`src/transform.py` of the busdata pipeline).

The transform is embedded shallowly:

* Python `datetime` values are represented by their proleptic-Gregorian
  ordinal (`datetime.toordinal`) together with the time-of-day fields;
  `datetime + timedelta(days=k)` adds `k` to the ordinal.  The constructor
  `datetime(year, month, day, ...)` validates the calendar date and the
  year range 1..9999, and arithmetic past `datetime.max` raises
  `OverflowError`; both failure modes are modelled.
* JSON records are dictionaries with possibly missing keys, so every field
  of a raw record is an `Option`; a Python `KeyError` (or `ValueError`,
  `IndexError`, `NameError`) escaping to the outer handler of
  `process_day_file` is modelled with `Except String`.
* The PostgreSQL store is a pair of row lists.  Per the documented schema,
  `Trip` has primary key `trip_id` (so `ON CONFLICT (trip_id) DO NOTHING`
  skips duplicate ids), while `BreadCrumb` declares no primary key, so a
  bare `ON CONFLICT DO NOTHING` has no arbiter index and inserts behave as
  plain appends.  Savepoint-scoped failures of the delete, the trip insert
  and each breadcrumb batch insert are modelled by an environment of
  failure flags; the surrounding transaction only becomes visible in the
  persisted store at `conn.commit()`, and closing the connection without
  committing discards all staged work.
-/

namespace BusData

/-! ### Calendar arithmetic (model of Python `datetime`) -/

/-- Gregorian leap-year test, as used by `datetime`. -/
def isLeap (y : ℕ) : Bool :=
  (y % 4 == 0 && y % 100 != 0) || y % 400 == 0

/-- Number of days in a month (`datetime` constructor validation). -/
def daysInMonth (y m : ℕ) : ℕ :=
  if m = 2 then (if isLeap y then 29 else 28)
  else if m = 4 ∨ m = 6 ∨ m = 9 ∨ m = 11 then 30
  else 31

/-- Validity check performed by the `datetime(year, month, day, ...)`
constructor: `MINYEAR = 1 ≤ year ≤ MAXYEAR = 9999` and a real calendar
date.  (The hour/minute/second arguments produced by the transform are
always in range, so they need no check here.) -/
def isValidDate (y m d : ℕ) : Bool :=
  1 ≤ y && y ≤ 9999 && 1 ≤ m && m ≤ 12 && 1 ≤ d && d ≤ daysInMonth y m

/-- Cumulative days before each month in a non-leap year. -/
def daysBeforeMonth (y m : ℕ) : ℕ :=
  [0, 31, 59, 90, 120, 151, 181, 212, 243, 273, 304, 334].getD (m - 1) 0
    + (if 2 < m ∧ isLeap y then 1 else 0)

/-- `datetime.toordinal`: day number of a proleptic-Gregorian date,
with `0001-01-01` at ordinal `1`. -/
def daysFromCivil (y m d : ℕ) : ℕ :=
  365 * (y - 1) + (y - 1) / 4 - (y - 1) / 100 + (y - 1) / 400
    + daysBeforeMonth y m + d

/-- `datetime.max.toordinal()`, the ordinal of 9999-12-31. -/
def maxOrdinal : ℕ := daysFromCivil 9999 12 31

/-- A decoded absolute instant: the ordinal of its calendar date plus the
time-of-day fields.  This is how `datetime` behaves under `timedelta`
addition (`toordinal` shifts, time of day is unchanged). -/
structure Timestamp where
  ord : ℕ
  hour : ℕ
  minute : ℕ
  second : ℕ
deriving DecidableEq

/-! ### Decoding helpers for `OPD_DATE` strings -/

/-- Python `int(s)` on a string slice, restricted to plain digit runs
(the transform's inputs are fixed-width digit fields; `int`'s tolerance
of sign and surrounding whitespace is not needed and not modelled —
on such inputs the later `datetime` validation fails anyway). -/
def natOfDigits (cs : List Char) : Option ℕ :=
  if cs.isEmpty then none
  else if cs.all (fun c => c.isDigit) then
    some (cs.foldl (fun n c => 10 * n + (c.toNat - 48)) 0)
  else none

/-- The fixed 12-entry month table of `transform.py`. -/
def monthNum (cs : List Char) : Option ℕ :=
  if cs = "JAN".toList then some 1
  else if cs = "FEB".toList then some 2
  else if cs = "MAR".toList then some 3
  else if cs = "APR".toList then some 4
  else if cs = "MAY".toList then some 5
  else if cs = "JUN".toList then some 6
  else if cs = "JUL".toList then some 7
  else if cs = "AUG".toList then some 8
  else if cs = "SEP".toList then some 9
  else if cs = "OCT".toList then some 10
  else if cs = "NOV".toList then some 11
  else if cs = "DEC".toList then some 12
  else none

/-- `opd_date.split(':')[0]` — everything before the first colon. -/
def dateSlice (opd : String) : List Char :=
  opd.toList.takeWhile (fun c => c != ':')

/-- `parse_timestamp(opd_date, act_time)` from `transform.py` lines 25-59.
All exceptions (unknown month token, non-numeric fields, invalid calendar
date, `OverflowError` past `datetime.max` when adding the overflow days)
are caught and turned into `None`, i.e. `none` here. -/
def parse_timestamp (opd : String) (act : ℕ) : Option Timestamp :=
  let ds := dateSlice opd
  match natOfDigits (ds.take 2), monthNum ((ds.drop 2).take 3),
      natOfDigits (ds.drop 5) with
  | some day, some month, some year =>
    let days_to_add := act / 86400
    let seconds_in_day := act % 86400
    let hours := seconds_in_day / 3600
    let minutes := seconds_in_day % 3600 / 60
    let seconds := seconds_in_day % 60
    if isValidDate year month day then
      let base := daysFromCivil year month day
      if 0 < days_to_add then
        if base + days_to_add ≤ maxOrdinal then
          some ⟨base + days_to_add, hours, minutes, seconds⟩
        else none
      else some ⟨base, hours, minutes, seconds⟩
    else none
  | _, _, _ => none

/-! ### Service-day classifier -/

inductive ServiceKey where
  | Weekday : ServiceKey
  | Saturday : ServiceKey
  | Sunday : ServiceKey
deriving DecidableEq

/-- `datetime.weekday()`: Monday is 0; ordinal 1 (0001-01-01) is a Monday. -/
def weekdayOf (ord : ℕ) : ℕ := (ord + 6) % 7

/-- Lines 160-170 of `transform.py`: weekday 5 is Saturday, 6 is Sunday,
everything else is a weekday. -/
def serviceKeyOfDate (y m d : ℕ) : ServiceKey :=
  let wd := weekdayOf (daysFromCivil y m d)
  if wd = 5 then ServiceKey.Saturday
  else if wd = 6 then ServiceKey.Sunday
  else ServiceKey.Weekday

/-- The trip-metadata date parse of lines 149-161 (duplicated from
`parse_timestamp` in the source, but *not* wrapped in a handler: any
failure escapes to the outer exception handler of `process_day_file`). -/
def tripDateParse (opd : String) : Except String (ℕ × ℕ × ℕ) :=
  let ds := dateSlice opd
  match natOfDigits (ds.take 2) with
  | none => Except.error "ValueError-day"
  | some day =>
    match natOfDigits (ds.drop 5) with
    | none => Except.error "ValueError-year"
    | some year =>
      match monthNum ((ds.drop 2).take 3) with
      | none => Except.error "KeyError-month"
      | some month =>
        if isValidDate year month day then Except.ok (year, month, day)
        else Except.error "ValueError-date"

/-! ### Raw records and the trip aggregator -/

/-- One JSON object read from the day file.  Every field is optional: the
source accesses the dictionary keys directly and a missing key raises
`KeyError`.  `GPS_LATITUDE`, `GPS_LONGITUDE` and `METERS` are modelled as
rationals. -/
structure RawRecord where
  trip : Option ℕ
  vehicle : Option ℕ
  opd : Option String
  act : Option ℕ
  lat : Option ℚ
  lon : Option ℚ
  meters : Option ℚ
deriving DecidableEq

/-- Python dictionary access `bc[key]`: `KeyError` when the key is absent. -/
def getF {α : Type} (o : Option α) : Except String α :=
  match o with
  | some a => Except.ok a
  | none => Except.error "KeyError"

/-- Python list indexing: `IndexError` when out of range. -/
def getIdx {α : Type} (l : List α) (i : ℕ) : Except String α :=
  match l.get? i with
  | some a => Except.ok a
  | none => Except.error "IndexError"

/-- The sort key of line 133: the tuple `(bc['EVENT_NO_TRIP'], bc['ACT_TIME'])`.
Only evaluated on records whose two key fields are present. -/
def keyOf (r : RawRecord) : ℕ × ℕ := (r.trip.getD 0, r.act.getD 0)

/-- Python tuple comparison of the sort keys: lexicographic order. -/
def keyLE (a b : RawRecord) : Prop :=
  (keyOf a).1 < (keyOf b).1 ∨ ((keyOf a).1 = (keyOf b).1 ∧ (keyOf a).2 ≤ (keyOf b).2)

instance keyLE.decRel : DecidableRel keyLE := fun a b =>
  inferInstanceAs (Decidable (_ ∨ _ ∧ _))

instance keyLE.total : IsTotal RawRecord keyLE where
  total a b := by unfold keyLE; omega

instance keyLE.trans : IsTrans RawRecord keyLE where
  trans a b c := by unfold keyLE; omega

/-- `breadcrumbs.sort(key=lambda x: (x['EVENT_NO_TRIP'], x['ACT_TIME']))`.
The key function is applied to every record; a record missing either key
field raises `KeyError` out of the sort.  Python's sort is stable; any
stable sort computes the same list, so a stable insertion sort embeds it
faithfully. -/
def trySort (l : List RawRecord) : Except String (List RawRecord) :=
  if l.all (fun r => r.trip.isSome && r.act.isSome) then
    Except.ok (List.insertionSort keyLE l)
  else Except.error "KeyError"

/-- One row of the `Trip` table. -/
structure TripRow where
  trip_id : ℕ
  route_id : Option ℕ
  vehicle_id : ℕ
  service_key : ServiceKey
  direction : String
deriving DecidableEq

/-- Append a record to its trip's group, preserving both the insertion
order of the groups (Python dictionaries iterate in insertion order) and
the order of records within a group. -/
def pushGroup (tid : ℕ) (bc : RawRecord) :
    List (ℕ × List RawRecord) → List (ℕ × List RawRecord)
  | [] => [(tid, [bc])]
  | (t, rs) :: rest =>
    if t = tid then (t, rs ++ [bc]) :: rest
    else (t, rs) :: pushGroup tid bc rest

/-- Lines 148-181: the `trips_data` tuple synthesized from the first
record of a trip — `(trip_id, None, vehicle_id, service_key, 'Out')`.
The date parse and the `VEHICLE_ID` access are unguarded, so their
failures abort the whole run. -/
def buildTrip (tid : ℕ) (bc : RawRecord) : Except String TripRow := do
  let opd ← getF bc.opd
  let ymd ← tripDateParse opd
  let v ← getF bc.vehicle
  pure ⟨tid, none, v, serviceKeyOfDate ymd.1 ymd.2.1 ymd.2.2, "Out"⟩

/-- One iteration of the grouping loop of lines 140-181: append the
record to `breadcrumbs_by_trip[trip_id]` and, if this trip id has not
been seen, synthesize its `trips_data` entry. -/
def buildStep (acc : List (ℕ × TripRow) × List (ℕ × List RawRecord))
    (bc : RawRecord) :
    Except String (List (ℕ × TripRow) × List (ℕ × List RawRecord)) := do
  let tid ← getF bc.trip
  let groups := pushGroup tid bc acc.2
  if (acc.1.lookup tid).isSome then
    pure (acc.1, groups)
  else do
    let trow ← buildTrip tid bc
    pure (acc.1 ++ [(tid, trow)], groups)

/-- The grouping loop of lines 140-181 over the whole sorted batch. -/
def buildGroups (sorted : List RawRecord) :
    Except String (List (ℕ × TripRow) × List (ℕ × List RawRecord)) :=
  sorted.foldlM buildStep ([], [])

/-! ### Speed calculator -/

/-- One row of the `BreadCrumb` table. -/
structure BCRow where
  tstamp : Timestamp
  lat : ℚ
  lon : ℚ
  speed : Option ℚ
  trip_id : ℕ
deriving DecidableEq

/-- Lines 221-226: the finite-difference speed for a non-first record.
`meters_diff / time_diff` is evaluated only under the `time_diff > 0`
guard; otherwise the speed stays `None`. -/
def speedCalc (prev bc : RawRecord) : Except String (Option ℚ) := do
  let m ← getF bc.meters
  let pm ← getF prev.meters
  let act ← getF bc.act
  let pact ← getF prev.act
  let td : ℤ := (act : ℤ) - (pact : ℤ)
  pure (if 0 < td then some ((m - pm) / (td : ℚ)) else none)

/-- The `for i, bc in enumerate(trip_breadcrumbs)` loop of lines 211-249.
A record whose timestamp fails to decode is skipped (`continue`); the
second state component threads `second_breadcrumb_speed`, which is set
only in the `i == 1` iteration and only when a speed was computed there.
The first record of a multi-record trip is appended with a `None` speed
placeholder. -/
def tripLoop (tid : ℕ) (recs : List RawRecord) :
    List (ℕ × RawRecord) → Option ℚ → Except String (List BCRow × Option ℚ)
  | [], second => Except.ok ([], second)
  | (i, bc) :: rest, second => do
    let opd ← getF bc.opd
    let act ← getF bc.act
    match parse_timestamp opd act with
    | none => tripLoop tid recs rest second
    | some ts => do
      let sp ←
        if 0 < i then do
          let prev ← getIdx recs (i - 1)
          speedCalc prev bc
        else pure none
      let second1 := if i = 1 && sp.isSome then sp else second
      let lat ← getF bc.lat
      let lon ← getF bc.lon
      let row : BCRow :=
        ⟨ts, lat, lon, if i = 0 && 1 < recs.length then none else sp, tid⟩
      let res ← tripLoop tid recs rest second1
      Except.ok (row :: res.1, res.2)

/-- Lines 207-259 for one trip: run the speed loop, append the rows to the
global `breadcrumb_data` list, then perform the first-breadcrumb fix-up.
The source writes `breadcrumb_data[0]` — index 0 of the *global* list —
so the fix-up patches the head of the accumulated list, whichever trip it
belongs to. -/
def processTripInto (acc : List BCRow) (tid : ℕ) (recs : List RawRecord) :
    Except String (List BCRow) := do
  let res ← tripLoop tid recs recs.enum none
  let acc1 := acc ++ res.1
  if res.2.isSome && 1 < recs.length then
    match acc1 with
    | [] => Except.error "IndexError"
    | r :: rs => Except.ok ({ r with speed := res.2 } :: rs)
  else Except.ok acc1

/-- The outer loop over `breadcrumbs_by_trip.items()`. -/
def allTripRows (groups : List (ℕ × List RawRecord)) :
    Except String (List BCRow) :=
  groups.foldlM (fun acc g => processTripInto acc g.1 g.2) []

/-- The pure part of the pipeline: sort, group, compute speeds. -/
def pipelineRows (records : List RawRecord) : Except String (List BCRow) := do
  let sorted ← trySort records
  let gs ← buildGroups sorted
  allTripRows gs.2

/-- The staged breadcrumb rows of a successful pipeline, `[]` on error. -/
def rowsOr (e : Except String (List BCRow)) : List BCRow :=
  match e with
  | Except.ok l => l
  | Except.error _ => []

/-! ### Transactional loader -/

/-- The persisted store: the `Trip` and `BreadCrumb` tables.  Row lists
keep multiplicity, since `BreadCrumb` has no unique key. -/
structure DB where
  trips : List TripRow
  crumbs : List BCRow
deriving DecidableEq

/-- Which savepoint-scoped database operations fail during a run:
the `DELETE` of `remove_existing_data`, the `Trip` insert, and each
breadcrumb batch insert (by batch index). -/
structure Env where
  purgeFails : Bool
  tripInsertFails : Bool
  batchFails : ℕ → Bool

/-- An environment in which every database operation succeeds. -/
def okEnv : Env := ⟨false, false, fun _ => false⟩

/-- `remove_existing_data` (lines 62-83): delete every breadcrumb whose
timestamp date equals the processing date, inside a savepoint.  On
failure the savepoint is rolled back (the staged state is unchanged) and
`False` is returned. -/
def remove_existing_data (fails : Bool) (d : ℕ) (crumbs : List BCRow) :
    Option (List BCRow) :=
  if fails then none
  else some (crumbs.filter (fun r => r.tstamp.ord != d))

/-- `INSERT INTO Trip ... ON CONFLICT (trip_id) DO NOTHING`: each value
row is inserted unless its `trip_id` is already present (in the table or
earlier in the same statement). -/
def insertTrips (existing : List TripRow) (new : List TripRow) : List TripRow :=
  new.foldl
    (fun acc t => if acc.any (fun u => u.trip_id == t.trip_id) then acc
                  else acc ++ [t])
    existing

/-- The `breadcrumb_data[i:i+batch_size]` slices of line 275-276 with
`batch_size = 1000`. -/
def chunksFuel {α : Type} : ℕ → List α → List (List α)
  | _, [] => []
  | 0, _ :: _ => []
  | fuel + 1, a :: rest =>
    ((a :: rest).take 1000) :: chunksFuel fuel ((a :: rest).drop 1000)

def chunks1000 {α : Type} (l : List α) : List (List α) :=
  chunksFuel l.length l

/-- The batch-insert loop of lines 275-288, processing the batch with
index `j` first: a failing batch is rolled back to its savepoint (its
rows are dropped) and counted in `errors`; every remaining batch is still
attempted, and successful batches append their rows in order. -/
def batchLoop (env : Env) : ℕ → List (List BCRow) → List BCRow × ℕ
  | _, [] => ([], 0)
  | j, b :: bs =>
    let rest := batchLoop env (j + 1) bs
    if env.batchFails j then (rest.1, rest.2 + 1)
    else (b ++ rest.1, rest.2)

/-- Breadcrumb insertion: `ON CONFLICT DO NOTHING` with no arbiter key on
`BreadCrumb` never suppresses a row, so staged rows of successful batches
are appended to the table. -/
def insertBatches (env : Env) (crumbs rows : List BCRow) : List BCRow × ℕ :=
  let res := batchLoop env 0 (chunks1000 rows)
  (crumbs ++ res.1, res.2)

/-- The observable outcome of one `process_day_file` run: the persisted
store after the connection is closed, whether `conn.commit()` ran, and
the per-category error/warning tallies that the source logs. -/
structure RunResult where
  db : DB
  committed : Bool
  purgeFailed : Bool
  aborted : Bool
  tripInsertTried : Bool
  tripInsertFailed : Bool
  batchesTried : ℕ
  batchErrors : ℕ
  jsonWarnings : ℕ
deriving DecidableEq

/-- `process_day_file` after the file has been read: `records` is the list
of JSON-decodable lines and `jw` the count of lines dropped with a decode
warning.  The staged (uncommitted) transaction state is kept separately
from `db0`; every `return` or exception before `conn.commit()` leaves the
persisted store at `db0`. -/
def processDayFileCore (env : Env) (d : ℕ) (records : List RawRecord)
    (clear_existing : Bool) (db0 : DB) (jw : ℕ) : RunResult :=
  if clear_existing && env.purgeFails then
    -- remove_existing_data rolled back its savepoint and returned False:
    -- the run logs the error and returns without committing (in the source
    -- the purge runs before the file is read, so no decode warnings yet).
    ⟨db0, false, true, false, false, false, 0, 0, 0⟩
  else
    let work1 : DB :=
      if clear_existing then
        { db0 with crumbs := db0.crumbs.filter (fun r => r.tstamp.ord != d) }
      else db0
    if records.isEmpty then
      -- "No breadcrumbs found": return without commit; the staged purge
      -- is discarded when the connection closes.
      ⟨db0, false, false, false, false, false, 0, 0, jw⟩
    else
      match trySort records with
      | Except.error _ => ⟨db0, false, false, true, false, false, 0, 0, jw⟩
      | Except.ok sorted =>
        match buildGroups sorted with
        | Except.error _ => ⟨db0, false, false, true, false, false, 0, 0, jw⟩
        | Except.ok (tripsData, groups) =>
          let tried := !tripsData.isEmpty
          let tfail := tried && env.tripInsertFails
          -- the trip-insert savepoint: failure rolls back only this scope
          let work2 : DB :=
            if tried && !env.tripInsertFails then
              { work1 with
                trips := insertTrips work1.trips (tripsData.map Prod.snd) }
            else work1
          match allTripRows groups with
          | Except.error _ => ⟨db0, false, false, true, tried, tfail, 0, 0, jw⟩
          | Except.ok rows =>
            if rows.isEmpty then
              -- `errors` is only bound inside `if breadcrumb_data:`; with no
              -- rows the final `if errors > 0:` raises NameError and the
              -- outer handler rolls the run back.
              ⟨db0, false, false, true, tried, tfail, 0, 0, jw⟩
            else
              let ins := insertBatches env work2.crumbs rows
              -- verification count query, then conn.commit()
              ⟨{ work2 with crumbs := ins.1 }, true, false, false, tried,
                tfail, (chunks1000 rows).length, ins.2, jw⟩

/-- `process_day_file(date_str, ...)` (lines 86-312).  `file` is `none`
when the day file is absent (the run returns before touching the store);
otherwise the lines are JSON-decoded, `none` entries being the lines that
fail decoding and are skipped with a warning. -/
def process_day_file (env : Env) (d : ℕ)
    (file : Option (List (Option RawRecord))) (clear_existing : Bool)
    (db0 : DB) : RunResult :=
  match file with
  | none => ⟨db0, false, false, false, false, false, 0, 0, 0⟩
  | some lines =>
    processDayFileCore env d lines.reduceOption clear_existing db0
      (lines.countP (fun o => o.isNone))

/-! ### Concrete fixtures used by witnesses and counterexamples -/

/-- The empty store. -/
def emptyDB : DB := ⟨[], []⟩

/-- Ordinal of the processing date 2022-12-25. -/
def d25 : ℕ := daysFromCivil 2022 12 25

/-- Trip 1, 2022-12-25, `ACT_TIME 0`, odometer 0. -/
def rA : RawRecord :=
  ⟨some 1, some 10, some "25DEC2022:00:00:00", some 0, some 1, some 2, some 0⟩

/-- Trip 1, 2022-12-25, `ACT_TIME 10`, odometer 100 (speed 10 m/s). -/
def rB : RawRecord :=
  ⟨some 1, some 10, some "25DEC2022:00:00:00", some 10, some 1, some 2, some 100⟩

/-- Trip 2, 2022-12-25, `ACT_TIME 0`, odometer 0. -/
def rC : RawRecord :=
  ⟨some 2, some 11, some "25DEC2022:00:00:00", some 0, some 3, some 4, some 0⟩

/-- Trip 2, 2022-12-25, `ACT_TIME 10`, odometer 200 (speed 20 m/s). -/
def rD : RawRecord :=
  ⟨some 2, some 11, some "25DEC2022:00:00:00", some 10, some 3, some 4, some 200⟩

/-- A record whose `ACT_TIME` rolls past midnight: decoded timestamp lands
on 2022-12-26 although the run processes 2022-12-25. -/
def rRoll : RawRecord :=
  ⟨some 1, some 5, some "25DEC2022:00:00:00", some 90000, some 0, some 0, some 0⟩

/-- Trip 1 record whose date parse succeeds for the trip metadata but
whose `parse_timestamp` overflows `datetime.max` (`31DEC9999` plus one
day), so the speed loop skips it. -/
def r9999 : RawRecord :=
  ⟨some 1, some 10, some "31DEC9999:00:00:00", some 86400, some 1, some 2, some 0⟩

/-- Trip 1 record with the same `ACT_TIME` as `r9999` (time delta 0). -/
def rEq : RawRecord :=
  ⟨some 1, some 10, some "25DEC2022:00:00:00", some 86400, some 1, some 2, some 5⟩

/-- Trip 1 record with `METERS` missing: the `bc['METERS']` access in the
speed loop raises `KeyError`. -/
def rBadM : RawRecord :=
  ⟨some 1, some 10, some "25DEC2022:00:00:00", some 10, some 1, some 2, none⟩

/-- A record with `ACT_TIME` missing: the sort key raises `KeyError`. -/
def rNoAct : RawRecord :=
  ⟨some 3, some 12, some "25DEC2022:00:00:00", none, some 0, some 0, some 0⟩

/-- Environment where the purge `DELETE` fails. -/
def purgeFailEnv : Env := ⟨true, false, fun _ => false⟩

/-- Environment where the first breadcrumb batch insert fails. -/
def batch0FailEnv : Env := ⟨false, false, fun j => j == 0⟩

/-- A store holding one breadcrumb dated 2022-12-25, used to observe that
an aborted run does not even persist the staged purge. -/
def dbOneCrumb : DB :=
  ⟨[⟨1, none, 10, ServiceKey.Sunday, "Out"⟩],
   [⟨⟨daysFromCivil 2022 12 25, 0, 0, 0⟩, 1, 2, none, 1⟩]⟩

/-! ## Theorems -/

/-- Sanity check grounding the weekday convention: 2022-12-24 was a real
Saturday and `datetime.weekday()` numbers it 5. -/
theorem weekday_grounding : weekdayOf (daysFromCivil 2022 12 24) = 5 := by decide

/-- C5: for every valid `(OPD_DATE, ACT_TIME)` pair (the date fields
decode, the date is a valid calendar date, and the result does not
overflow `datetime.max`), the decoded timestamp's calendar date equals
the `OPD_DATE` date plus `ACT_TIME / 86400` days — in particular the same
date when `ACT_TIME < 86400` — and the time-of-day fields are exactly
`ACT_TIME % 86400` split into hours, minutes and seconds. -/
theorem c5_parse_timestamp (opd : String) (act day month year : ℕ)
    (hd : natOfDigits ((dateSlice opd).take 2) = some day)
    (hm : monthNum (((dateSlice opd).drop 2).take 3) = some month)
    (hy : natOfDigits ((dateSlice opd).drop 5) = some year)
    (hv : isValidDate year month day = true)
    (hov : daysFromCivil year month day + act / 86400 ≤ maxOrdinal) :
    ∃ ts, parse_timestamp opd act = some ts
      ∧ ts.ord = daysFromCivil year month day + act / 86400
      ∧ ts.hour = act % 86400 / 3600
      ∧ ts.minute = act % 86400 % 3600 / 60
      ∧ ts.second = act % 86400 % 60
      ∧ ts.hour * 3600 + ts.minute * 60 + ts.second = act % 86400 := by
  unfold parse_timestamp
  simp only [hd, hm, hy, hv, if_true]
  by_cases hq : 0 < act / 86400
  · simp only [hq, if_true, hov, if_pos]
    exact ⟨_, rfl, rfl, rfl, rfl, rfl, by dsimp only; omega⟩
  · simp only [hq, if_false]
    exact ⟨_, rfl, by dsimp only; omega, rfl, rfl, rfl, by dsimp only; omega⟩

/-- C5 witness: the spec's own example `OPD_DATE = "25DEC2022:00:00:00"`,
`ACT_TIME = 90000` decodes to 2022-12-26 01:00:00. -/
theorem c5_parse_timestamp_witness :
    natOfDigits ((dateSlice "25DEC2022:00:00:00").take 2) = some 25
    ∧ isValidDate 2022 12 25 = true
    ∧ ∃ ts, parse_timestamp "25DEC2022:00:00:00" 90000 = some ts
        ∧ ts.ord = daysFromCivil 2022 12 25 + 90000 / 86400
        ∧ ts.hour = 90000 % 86400 / 3600
        ∧ ts.minute = 90000 % 86400 % 3600 / 60
        ∧ ts.second = 90000 % 86400 % 60
        ∧ ts.hour * 3600 + ts.minute * 60 + ts.second = 90000 % 86400 :=
  ⟨by decide, by decide,
    c5_parse_timestamp "25DEC2022:00:00:00" 90000 25 12 2022
      (by decide) (by decide) (by decide) (by decide) (by decide)⟩

/-- C9: the service-day classifier is total on calendar dates, returns
exactly one of the three categories, and assigns `Saturday` precisely to
calendar Saturdays (weekday 5 in the Monday-first numbering of
`datetime.weekday()`), `Sunday` precisely to calendar Sundays (weekday 6)
and `Weekday` to the remaining five days. -/
theorem c9_service_day (y m d : ℕ) :
    (serviceKeyOfDate y m d = ServiceKey.Saturday
      ∨ serviceKeyOfDate y m d = ServiceKey.Sunday
      ∨ serviceKeyOfDate y m d = ServiceKey.Weekday)
    ∧ (serviceKeyOfDate y m d = ServiceKey.Saturday
        ↔ weekdayOf (daysFromCivil y m d) = 5)
    ∧ (serviceKeyOfDate y m d = ServiceKey.Sunday
        ↔ weekdayOf (daysFromCivil y m d) = 6)
    ∧ (serviceKeyOfDate y m d = ServiceKey.Weekday
        ↔ (weekdayOf (daysFromCivil y m d) ≠ 5
            ∧ weekdayOf (daysFromCivil y m d) ≠ 6)) := by
  unfold serviceKeyOfDate
  by_cases h5 : weekdayOf (daysFromCivil y m d) = 5
  · simp [h5]
  · by_cases h6 : weekdayOf (daysFromCivil y m d) = 6 <;> simp [h5, h6]

/-! ### Loader lemmas -/

theorem chunksFuel_nil {α : Type} (fuel : ℕ) : chunksFuel fuel ([] : List α) = [] := by
  cases fuel <;> rfl

theorem chunksFuel_flatten {α : Type} :
    ∀ (fuel : ℕ) (l : List α), l.length ≤ fuel → (chunksFuel fuel l).flatten = l := by
  intro fuel
  induction fuel with
  | zero =>
    intro l hl
    have : l = [] := List.eq_nil_of_length_eq_zero (Nat.le_zero.mp hl)
    subst this; rfl
  | succ n ih =>
    intro l hl
    cases l with
    | nil => rfl
    | cons a rest =>
      have hdrop : ((a :: rest).drop 1000).length ≤ n := by
        simp only [List.length_drop, List.length_cons] at *
        omega
      simp only [chunksFuel, List.flatten, ih _ hdrop, List.take_append_drop]

theorem chunks1000_flatten {α : Type} (l : List α) : (chunks1000 l).flatten = l :=
  chunksFuel_flatten l.length l (Nat.le_refl _)

theorem chunksFuel_mem_length {α : Type} :
    ∀ (fuel : ℕ) (l : List α) (b : List α), b ∈ chunksFuel fuel l →
      0 < b.length ∧ b.length ≤ 1000 := by
  intro fuel
  induction fuel with
  | zero =>
    intro l b hb
    cases l <;> simp [chunksFuel] at hb
  | succ n ih =>
    intro l b hb
    cases l with
    | nil => simp [chunksFuel] at hb
    | cons a rest =>
      simp only [chunksFuel, List.mem_cons] at hb
      rcases hb with hb | hb
      · subst hb
        simp only [List.length_take, List.length_cons]
        omega
      · exact ih _ _ hb

theorem chunksFuel_ne_nil {α : Type} (fuel : ℕ) (l : List α)
    (h : chunksFuel fuel l ≠ []) : l ≠ [] := by
  intro hl
  subst hl
  exact h (chunksFuel_nil fuel)

theorem chunksFuel_full {α : Type} :
    ∀ (fuel : ℕ) (l : List α) (i : ℕ) (b : List α),
      (chunksFuel fuel l).get? i = some b →
      i + 1 < (chunksFuel fuel l).length → b.length = 1000 := by
  intro fuel
  induction fuel with
  | zero =>
    intro l i b hb _
    cases l <;> simp [chunksFuel] at hb
  | succ n ih =>
    intro l i b hb hlen
    cases l with
    | nil => simp [chunksFuel] at hb
    | cons a rest =>
      simp only [chunksFuel] at hb hlen
      cases i with
      | zero =>
        simp only [List.get?] at hb
        cases hb
        simp only [List.length_cons] at hlen
        have hne : chunksFuel n ((a :: rest).drop 1000) ≠ [] := by
          intro hnil
          rw [hnil] at hlen
          simp at hlen
        have : (a :: rest).drop 1000 ≠ [] := chunksFuel_ne_nil _ _ hne
        have hlong : 1000 < (a :: rest).length := by
          by_contra hc
          exact this (List.drop_eq_nil_of_le (by omega))
        simp only [List.length_take]
        omega
      | succ j =>
        simp only [List.get?] at hb
        simp only [List.length_cons] at hlen
        exact ih _ j b hb (by omega)

theorem batchLoop_fst (env : Env) :
    ∀ (j : ℕ) (bs : List (List BCRow)),
      (batchLoop env j bs).1
        = ((bs.enumFrom j).filterMap
            (fun p => if env.batchFails p.1 = true then none else some p.2)).flatten := by
  intro j bs
  induction bs generalizing j with
  | nil => rfl
  | cons b rest ih =>
    simp only [batchLoop, List.enumFrom, List.filterMap]
    by_cases hf : env.batchFails j = true <;> simp [hf, ih (j + 1)]

theorem batchLoop_snd (env : Env) :
    ∀ (j : ℕ) (bs : List (List BCRow)),
      (batchLoop env j bs).2 = (bs.enumFrom j).countP (fun p => env.batchFails p.1) := by
  intro j bs
  induction bs generalizing j with
  | nil => rfl
  | cons b rest ih =>
    simp only [batchLoop, List.enumFrom, List.countP_cons]
    by_cases hf : env.batchFails j = true <;> simp [hf, ih (j + 1)]

theorem batchLoop_all_ok (env : Env) (hok : ∀ j, env.batchFails j = false) :
    ∀ (j : ℕ) (bs : List (List BCRow)), batchLoop env j bs = (bs.flatten, 0) := by
  intro j bs
  induction bs generalizing j with
  | nil => rfl
  | cons b rest ih => simp [batchLoop, hok j, ih (j + 1)]

theorem insertBatches_all_ok (env : Env) (hok : ∀ j, env.batchFails j = false)
    (crumbs rows : List BCRow) : insertBatches env crumbs rows = (crumbs ++ rows, 0) := by
  unfold insertBatches
  rw [batchLoop_all_ok env hok, chunks1000_flatten]

/-! ### Claim theorems about the loader -/

/-- C3: when the purge `DELETE` of `remove_existing_data` fails, the
savepoint is rolled back, the run returns before any trip or breadcrumb
insert is attempted and before `conn.commit()`, so the persisted store is
exactly the pre-run store; the failure is reported (modelled by the
`purgeFailed` flag standing for the logged error and warning). -/
theorem c3_purge_failure_aborts (env : Env) (d : ℕ)
    (lines : List (Option RawRecord)) (db0 : DB)
    (hp : env.purgeFails = true) :
    (process_day_file env d (some lines) true db0).db = db0
    ∧ (process_day_file env d (some lines) true db0).committed = false
    ∧ (process_day_file env d (some lines) true db0).purgeFailed = true
    ∧ (process_day_file env d (some lines) true db0).tripInsertTried = false
    ∧ (process_day_file env d (some lines) true db0).batchesTried = 0 := by
  unfold process_day_file processDayFileCore
  simp [hp]

/-- C3 witness: a concrete run against a non-empty store with a failing
purge leaves the store untouched and uncommitted. -/
theorem c3_purge_failure_aborts_witness :
    purgeFailEnv.purgeFails = true
    ∧ ((process_day_file purgeFailEnv d25 (some [some rA]) true dbOneCrumb).db
        = dbOneCrumb
      ∧ (process_day_file purgeFailEnv d25 (some [some rA]) true
          dbOneCrumb).committed = false
      ∧ (process_day_file purgeFailEnv d25 (some [some rA]) true
          dbOneCrumb).purgeFailed = true
      ∧ (process_day_file purgeFailEnv d25 (some [some rA]) true
          dbOneCrumb).tripInsertTried = false
      ∧ (process_day_file purgeFailEnv d25 (some [some rA]) true
          dbOneCrumb).batchesTried = 0) :=
  ⟨rfl, c3_purge_failure_aborts purgeFailEnv d25 [some rA] dbOneCrumb rfl⟩

/-- C10: an absent day file, or a day file with zero JSON-decodable
records, changes nothing: the run returns before `conn.commit()`, so even
a staged purge is discarded when the connection closes, and the persisted
store is exactly the pre-run store. -/
theorem c10_empty_input_no_change (env : Env) (d : ℕ) (c : Bool) (db0 : DB)
    (lines : List (Option RawRecord)) (hempty : lines.reduceOption = []) :
    ((process_day_file env d none c db0).db = db0
      ∧ (process_day_file env d none c db0).committed = false)
    ∧ ((process_day_file env d (some lines) c db0).db = db0
      ∧ (process_day_file env d (some lines) c db0).committed = false) := by
  refine ⟨⟨rfl, rfl⟩, ?_⟩
  have hcore : process_day_file env d (some lines) c db0
      = processDayFileCore env d lines.reduceOption c db0
          (lines.countP (fun o => o.isNone)) := rfl
  rw [hcore]
  unfold processDayFileCore
  rw [hempty]
  by_cases hc : (c && env.purgeFails) = true <;> simp [hc]

/-- C10 witness: a file whose only line fails JSON decoding, run against a
store that holds a breadcrumb dated on the processing date: the purge is
staged but discarded, and the store is unchanged. -/
theorem c10_empty_input_no_change_witness :
    ([(none : Option RawRecord)].reduceOption = [])
    ∧ (((process_day_file okEnv d25 none true dbOneCrumb).db = dbOneCrumb
        ∧ (process_day_file okEnv d25 none true dbOneCrumb).committed = false)
      ∧ ((process_day_file okEnv d25 (some [none]) true dbOneCrumb).db
            = dbOneCrumb
        ∧ (process_day_file okEnv d25 (some [none]) true
            dbOneCrumb).committed = false)) :=
  ⟨by decide, c10_empty_input_no_change okEnv d25 true dbOneCrumb [none] (by decide)⟩

/-- C7: breadcrumb insertion proceeds over the `[i:i+1000]` slices of the
staged rows — every slice non-empty, at most 1000 rows, every slice except
possibly the last exactly 1000 rows, and the slices concatenate back to
the staged rows.  Each slice is wrapped in its own savepoint: a failing
slice contributes no rows but adds one to the error tally, every
subsequent slice is still attempted (successful slices all append, in
order), and a run that reached the batch loop still commits. -/
theorem c7_batched_inserts :
    (∀ (rows b : List BCRow), b ∈ chunks1000 rows → 0 < b.length ∧ b.length ≤ 1000)
    ∧ (∀ (rows : List BCRow) (i : ℕ) (b : List BCRow),
        (chunks1000 rows).get? i = some b → i + 1 < (chunks1000 rows).length →
        b.length = 1000)
    ∧ (∀ rows : List BCRow, (chunks1000 rows).flatten = rows)
    ∧ (∀ (env : Env) (crumbs rows : List BCRow),
        insertBatches env crumbs rows
          = (crumbs ++ (((chunks1000 rows).enum).filterMap
                (fun p => if env.batchFails p.1 = true then none
                          else some p.2)).flatten,
             ((chunks1000 rows).enum).countP (fun p => env.batchFails p.1)))
    ∧ (∀ (env : Env) (d : ℕ) (file : Option (List (Option RawRecord)))
        (c : Bool) (db0 : DB),
        0 < (process_day_file env d file c db0).batchesTried →
        (process_day_file env d file c db0).committed = true) := by
  refine ⟨fun rows b hb => chunksFuel_mem_length _ _ _ hb,
    fun rows i b hb hl => chunksFuel_full _ _ _ _ hb hl,
    chunks1000_flatten,
    fun env crumbs rows => ?_,
    fun env d file c db0 => ?_⟩
  · unfold insertBatches
    rw [List.enum]
    have h1 := batchLoop_fst env 0 (chunks1000 rows)
    have h2 := batchLoop_snd env 0 (chunks1000 rows)
    cases hbl : batchLoop env 0 (chunks1000 rows) with
    | mk fst snd =>
      rw [hbl] at h1 h2
      simp only at h1 h2
      rw [h1, h2]
  · cases file with
    | none => intro h; simp [process_day_file] at h
    | some lines =>
      unfold process_day_file processDayFileCore
      repeat' split
      all_goals intro h
      all_goals first
        | rfl
        | (exfalso; exact absurd h (by simp))

/-- C7 witness: a run whose single breadcrumb batch fails still commits,
with the failure counted. -/
theorem c7_batched_inserts_witness :
    0 < (process_day_file batch0FailEnv d25
          (some [some rA, some rB, some rC, some rD]) true emptyDB).batchesTried
    ∧ (process_day_file batch0FailEnv d25
          (some [some rA, some rB, some rC, some rD]) true emptyDB).committed
        = true :=
  ⟨by decide,
    c7_batched_inserts.2.2.2.2 batch0FailEnv d25
      (some [some rA, some rB, some rC, some rD]) true emptyDB (by decide)⟩

/-! ### Evaluations exhibiting the first-breadcrumb fix-up defect -/

unseal Rat.mul Rat.add Rat.sub Rat.inv in
/-- C1: evaluation at a failing input.  The batch holds two trips of two
points each (trip 1 with second-point speed 10, trip 2 with second-point
speed 20).  The source's fix-up writes `breadcrumb_data[0]` — index 0 of
the *global* batch list — instead of the current trip's first row, so the
stored speeds come out as `[(1, 20), (1, 10), (2, none), (2, 20)]`:
trip 2's earliest point keeps the `None` placeholder instead of 20, and
trip 1's earliest point is overwritten with trip 2's value 20 instead of
its own 10. -/
theorem c1_first_point_speed_defect :
    (process_day_file okEnv d25 (some [some rA, some rB, some rC, some rD])
        true emptyDB).db.crumbs.map (fun r => (r.trip_id, r.speed))
      = [(1, some 20), (1, some 10), (2, none), (2, some 20)] := by decide

unseal Rat.mul Rat.add Rat.sub Rat.inv in
/-- C2 counterexample: one record whose `ACT_TIME = 90000` rolls the
timestamp to 2022-12-26 while the run processes 2022-12-25.  The purge
deletes only rows dated 2022-12-25, and `BreadCrumb` has no unique key
for `ON CONFLICT DO NOTHING` to act on, so the second run re-inserts the
row and the persisted store differs from the single-run store (two copies
instead of one). -/
theorem c2_rerun_not_idempotent :
    (process_day_file okEnv d25 (some [some rRoll]) true
        (process_day_file okEnv d25 (some [some rRoll]) true emptyDB).db).db
      ≠ (process_day_file okEnv d25 (some [some rRoll]) true emptyDB).db := by
  decide

/-- C4 counterexample: a batch holding one fully valid record (`rA`) and
one record missing `METERS` (`rBadM`).  The `bc['METERS']` access in the
speed loop raises `KeyError`, which only the outer handler catches: the
whole run is rolled back, nothing is committed, and the valid remaining
record is not processed — contradicting "the record is dropped … and the
run continues; no malformed record aborts the batch". -/
theorem c4_missing_field_aborts_run :
    (process_day_file okEnv d25 (some [some rA, some rBadM]) true
        emptyDB).committed = false
    ∧ (process_day_file okEnv d25 (some [some rA, some rBadM]) true
        emptyDB).db = emptyDB
    ∧ (process_day_file okEnv d25 (some [some rA, some rBadM]) true
        emptyDB).aborted = true := by decide

unseal Rat.mul Rat.add Rat.sub Rat.inv in
/-- C6 counterexample: trip 1 consists of `r9999` (valid date for the trip
metadata, but `parse_timestamp` overflows `datetime.max`, so the speed
loop skips it) followed by `rEq` with the *same* `ACT_TIME` — a time
delta of 0, so `rEq`'s row is stored with speed `None` and becomes the
head of the global batch list.  Trip 2 then computes second-point speed
20 and its fix-up overwrites `breadcrumb_data[0]`: the stored speed of a
point whose time delta to its previous point is 0 ends up `some 20`, not
null.  (The first stored row is trip 1's row dated 2022-12-26, i.e.
`rEq`'s row.) -/
theorem c6_delta_zero_speed_overwritten :
    (process_day_file okEnv d25
          (some [some r9999, some rEq, some rC, some rD]) true
          emptyDB).db.crumbs.map (fun r => (r.trip_id, r.tstamp.ord, r.speed))
        = [(1, daysFromCivil 2022 12 26, some 20),
           (2, daysFromCivil 2022 12 25, none),
           (2, daysFromCivil 2022 12 25, some 20)]
    ∧ rEq.act = r9999.act := by decide

/-! ### Lemmas for the amended malformed-record claim -/

theorem exceptOkBind {α β : Type} (a : α) (f : α → Except String β) :
    (Except.ok a : Except String α) >>= f = f a := rfl

theorem exceptErrorBind {α β : Type} (e : String) (f : α → Except String β) :
    (Except.error e : Except String α) >>= f = Except.error e := rfl

theorem reduceOption_map_some {α : Type} (l : List α) :
    (l.map some).reduceOption = l := by
  induction l with
  | nil => rfl
  | cons a t ih => simp [List.reduceOption_cons_of_some, ih]

theorem countP_isNone_map_some {α : Type} (l : List α) :
    (l.map some).countP (fun o => o.isNone) = 0 := by
  induction l with
  | nil => rfl
  | cons a t ih => simp [List.countP_cons, ih]

theorem core_jsonWarnings (env : Env) (d : ℕ) (records : List RawRecord)
    (c : Bool) (db0 : DB) (jw jw2 : ℕ) (hp : env.purgeFails = false) :
    processDayFileCore env d records c db0 jw
      = { processDayFileCore env d records c db0 jw2 with jsonWarnings := jw } := by
  unfold processDayFileCore
  simp only [hp, Bool.and_false]
  repeat' split
  all_goals first | rfl | simp_all

/-- C4 amended: lines that fail JSON decoding are dropped with a logged
warning and the run continues identically on the remaining records (the
result differs only in the warning tally); a record whose timestamp fails
to decode is skipped by the speed loop, which continues with the
remaining records; but a record missing a required field (here
`EVENT_NO_TRIP` or `ACT_TIME`, read by the sort key) raises `KeyError`,
which aborts the entire batch: nothing is committed and the store is
unchanged. -/
theorem c4_amended :
    (∀ (env : Env) (d : ℕ) (lines : List (Option RawRecord)) (c : Bool)
        (db0 : DB), env.purgeFails = false →
      process_day_file env d (some lines) c db0
        = { process_day_file env d (some (lines.reduceOption.map some)) c db0
            with jsonWarnings := lines.countP (fun o => o.isNone) })
    ∧ (∀ (env : Env) (d : ℕ) (c : Bool) (db0 : DB)
        (lines : List (Option RawRecord)),
        (∃ r ∈ lines.reduceOption, r.trip.isNone ∨ r.act.isNone) →
        (process_day_file env d (some lines) c db0).committed = false
        ∧ (process_day_file env d (some lines) c db0).db = db0)
    ∧ (∀ (tid : ℕ) (recs : List RawRecord) (pairs : List (ℕ × RawRecord))
        (second : Option ℚ) (i : ℕ) (bc : RawRecord) (opd : String) (act : ℕ),
        bc.opd = some opd → bc.act = some act →
        parse_timestamp opd act = none →
        tripLoop tid recs ((i, bc) :: pairs) second
          = tripLoop tid recs pairs second) := by
  refine ⟨?_, ?_, ?_⟩
  · intro env d lines c db0 hp
    show processDayFileCore env d lines.reduceOption c db0
        (lines.countP (fun o => o.isNone))
      = { processDayFileCore env d (lines.reduceOption.map some).reduceOption c
            db0 ((lines.reduceOption.map some).countP (fun o => o.isNone))
          with jsonWarnings := lines.countP (fun o => o.isNone) }
    rw [reduceOption_map_some, countP_isNone_map_some]
    exact core_jsonWarnings env d lines.reduceOption c db0 _ 0 hp
  · intro env d c db0 lines hex
    obtain ⟨r, hr, hfield⟩ := hex
    have hne : lines.reduceOption.isEmpty = false := by
      cases hl : lines.reduceOption with
      | nil => rw [hl] at hr; cases hr
      | cons a t => rfl
    have hsort : trySort lines.reduceOption = Except.error "KeyError" := by
      unfold trySort
      rw [if_neg]
      intro hall
      rw [List.all_eq_true] at hall
      have h2 := hall r hr
      rcases hfield with hf | hf
      · cases htrip : r.trip <;> rw [htrip] at h2 hf <;> simp_all
      · cases hact : r.act <;> rw [hact] at h2 hf <;> simp_all
    have hcore : process_day_file env d (some lines) c db0
        = processDayFileCore env d lines.reduceOption c db0
            (lines.countP (fun o => o.isNone)) := rfl
    rw [hcore]
    unfold processDayFileCore
    by_cases hp : (c && env.purgeFails) = true
    · simp [hp]
    · simp [hp, hne, hsort]
  · intro tid recs pairs second i bc opd act hopd hact hparse
    simp only [tripLoop, hopd, hact, getF, exceptOkBind, hparse]

/-- C4 amended witness: a concrete batch containing a record with no
`ACT_TIME` aborts with the store unchanged. -/
theorem c4_amended_witness :
    (∃ r ∈ [some rA, some rNoAct].reduceOption, r.trip.isNone ∨ r.act.isNone)
    ∧ ((process_day_file okEnv d25 (some [some rA, some rNoAct]) true
          dbOneCrumb).committed = false
      ∧ (process_day_file okEnv d25 (some [some rA, some rNoAct]) true
          dbOneCrumb).db = dbOneCrumb) :=
  ⟨⟨rNoAct, by decide, by decide⟩,
    c4_amended.2.1 okEnv d25 true dbOneCrumb [some rA, some rNoAct]
      ⟨rNoAct, by decide, by decide⟩⟩

/-! ### Lemmas and amended claim for the speed guard -/

/-- C6 amended: at the speed-calculation stage the claim is exact — for a
non-first record, a time delta ≤ 0 yields a `None` speed, and a non-null
speed is produced only by a division with a strictly positive time delta
(so division by zero never occurs); and the row the loop emits for such a
record carries exactly that computed speed.  The *stored* value can
differ only for the single row at the head of the global batch list,
which the first-breadcrumb fix-up may overwrite with another trip's
second-point speed (see the counterexample). -/
theorem c6_speed_guard :
    (∀ (prev bc : RawRecord) (sp : Option ℚ),
      speedCalc prev bc = Except.ok sp →
      ∀ (act pact : ℕ), bc.act = some act → prev.act = some pact →
        (((act : ℤ) - (pact : ℤ) ≤ 0 → sp = none)
          ∧ ∀ v : ℚ, sp = some v →
              ∃ m pm : ℚ, bc.meters = some m ∧ prev.meters = some pm
                ∧ 0 < (act : ℤ) - (pact : ℤ)
                ∧ v = (m - pm) / ((((act : ℤ) - (pact : ℤ)) : ℤ) : ℚ)))
    ∧ (∀ (tid : ℕ) (recs : List RawRecord) (pairs : List (ℕ × RawRecord))
        (second : Option ℚ) (i : ℕ) (bc : RawRecord) (opd : String)
        (act : ℕ) (ts : Timestamp) (prev : RawRecord)
        (out : List BCRow × Option ℚ),
        bc.opd = some opd → bc.act = some act →
        parse_timestamp opd act = some ts → 0 < i →
        getIdx recs (i - 1) = Except.ok prev →
        tripLoop tid recs ((i, bc) :: pairs) second = Except.ok out →
        ∃ (sp : Option ℚ) (lat lon : ℚ) (rest : List BCRow),
          speedCalc prev bc = Except.ok sp ∧ bc.lat = some lat
          ∧ bc.lon = some lon
          ∧ out.1 = ⟨ts, lat, lon, sp, tid⟩ :: rest) := by
  constructor
  · intro prev bc sp h act pact hact hpact
    unfold speedCalc at h
    cases hm : bc.meters with
    | none => rw [hm] at h; simp [getF, exceptErrorBind] at h
    | some m =>
      cases hpm : prev.meters with
      | none => rw [hm, hpm] at h; simp [getF, exceptOkBind, exceptErrorBind] at h
      | some pm =>
        rw [hm, hpm, hact, hpact] at h
        simp only [getF, exceptOkBind, pure, Except.pure, Except.ok.injEq] at h
        constructor
        · intro hle
          rw [← h]
          rw [if_neg (by omega)]
        · intro v hv
          refine ⟨m, pm, rfl, rfl, ?_, ?_⟩
          · by_contra hpos
            rw [← h, if_neg hpos] at hv
            cases hv
          · by_cases hpos : 0 < (act : ℤ) - (pact : ℤ)
            · rw [← h, if_pos hpos] at hv
              exact (Option.some.injEq _ _).mp hv.symm
            · rw [← h, if_neg hpos] at hv
              cases hv
  · intro tid recs pairs second i bc opd act ts prev out hopd hact hts hi
      hprev hloop
    have hi0 : (0 < i) = True := by simp [hi]
    simp only [tripLoop, hopd, hact, getF, exceptOkBind, hts, hi0, if_true,
      hprev] at hloop
    cases hsp : speedCalc prev bc with
    | error e => rw [hsp] at hloop; simp [exceptErrorBind] at hloop
    | ok sp =>
      rw [hsp] at hloop
      simp only [exceptOkBind] at hloop
      cases hlat : bc.lat with
      | none => rw [hlat] at hloop; simp [getF, exceptErrorBind] at hloop
      | some lat =>
        cases hlon : bc.lon with
        | none => rw [hlat, hlon] at hloop; simp [getF, exceptOkBind, exceptErrorBind] at hloop
        | some lon =>
          rw [hlat, hlon] at hloop
          simp only [getF, exceptOkBind] at hloop
          cases hrest : tripLoop tid recs pairs
              (if i = 1 && sp.isSome then sp else second) with
          | error e => rw [hrest] at hloop; simp [exceptErrorBind] at hloop
          | ok res =>
            rw [hrest] at hloop
            simp only [exceptOkBind, Except.ok.injEq] at hloop
            refine ⟨sp, lat, lon, res.1, rfl, rfl, rfl, ?_⟩
            rw [← hloop]
            have : (i = 0 && 1 < recs.length) = false := by
              have : i ≠ 0 := by omega
              simp [this]
            simp [this]

unseal Rat.mul Rat.add Rat.sub Rat.inv in
/-- C6 amended witness: a concrete positive-delta pair produces exactly
the guarded quotient. -/
theorem c6_speed_guard_witness :
    speedCalc rC rD = Except.ok (some 20)
    ∧ ∃ m pm : ℚ, rD.meters = some m ∧ rC.meters = some pm
        ∧ 0 < (10 : ℤ) - (0 : ℤ)
        ∧ (20 : ℚ) = (m - pm) / ((((10 : ℤ) - (0 : ℤ)) : ℤ) : ℚ) :=
  ⟨by rfl,
    (c6_speed_guard.1 rC rD (some 20) (by rfl) 10 0 rfl rfl).2 20 rfl⟩

/-! ### Lemmas for the amended idempotence claim -/

theorem insertTrips_mem :
    ∀ (T E : List TripRow) (u : TripRow), u ∈ E → u ∈ insertTrips E T := by
  intro T
  induction T with
  | nil => intro E u hu; exact hu
  | cons t T ih =>
    intro E u hu
    show u ∈ insertTrips (if E.any (fun v => v.trip_id == t.trip_id) then E
        else E ++ [t]) T
    apply ih
    by_cases h : E.any (fun v => v.trip_id == t.trip_id) = true
    · simpa [h] using hu
    · simp only [h]
      simp only [Bool.false_eq_true, if_false]
      exact List.mem_append_left _ hu

theorem insertTrips_id_present :
    ∀ (T E : List TripRow) (t : TripRow), t ∈ T →
      ∃ u ∈ insertTrips E T, u.trip_id = t.trip_id := by
  intro T
  induction T with
  | nil => intro E t ht; cases ht
  | cons s T ih =>
    intro E t ht
    have hstep : insertTrips E (s :: T)
        = insertTrips (if E.any (fun v => v.trip_id == s.trip_id) then E
            else E ++ [s]) T := rfl
    rcases List.mem_cons.mp ht with rfl | hmem
    · by_cases h : E.any (fun v => v.trip_id == t.trip_id) = true
      · obtain ⟨u, hu, hbeq⟩ := List.any_eq_true.mp h
        refine ⟨u, ?_, by simpa using hbeq⟩
        rw [hstep, if_pos h]
        exact insertTrips_mem T E u hu
      · refine ⟨t, ?_, rfl⟩
        rw [hstep, if_neg h]
        exact insertTrips_mem T _ t (List.mem_append_right _ (by simp))
    · exact ih _ t hmem

theorem insertTrips_of_present :
    ∀ (T E : List TripRow),
      (∀ t ∈ T, ∃ u ∈ E, u.trip_id = t.trip_id) → insertTrips E T = E := by
  intro T
  induction T with
  | nil => intro E _; rfl
  | cons s T ih =>
    intro E h
    obtain ⟨u, hu, hid⟩ := h s (by simp)
    have hany : E.any (fun v => v.trip_id == s.trip_id) = true :=
      List.any_eq_true.mpr ⟨u, hu, by simp [hid]⟩
    show insertTrips (if E.any (fun v => v.trip_id == s.trip_id) then E
        else E ++ [s]) T = E
    rw [if_pos hany]
    exact ih E (fun t ht => h t (List.mem_cons_of_mem s ht))

theorem insertTrips_idem (E : List TripRow) (T : List TripRow) :
    insertTrips (insertTrips E T) T = insertTrips E T :=
  insertTrips_of_present T (insertTrips E T)
    (fun t ht => insertTrips_id_present T E t ht)

theorem filter_ne_idem (d : ℕ) (l : List BCRow) :
    (l.filter (fun r => r.tstamp.ord != d)).filter
        (fun r => r.tstamp.ord != d)
      = l.filter (fun r => r.tstamp.ord != d) := by
  rw [List.filter_filter]
  simp only [Bool.and_self]

theorem filter_eq_date_nil (d : ℕ) (rows : List BCRow)
    (hall : ∀ r ∈ rows, r.tstamp.ord = d) :
    rows.filter (fun r => r.tstamp.ord != d) = [] := by
  rw [List.filter_eq_nil_iff]
  intro r hr
  simp [hall r hr]

theorem pipelineRows_eq (records sorted : List RawRecord)
    (T : List (ℕ × TripRow)) (groups : List (ℕ × List RawRecord))
    (rows : List BCRow)
    (hts : trySort records = Except.ok sorted)
    (hbg : buildGroups sorted = Except.ok (T, groups))
    (har : allTripRows groups = Except.ok rows) :
    pipelineRows records = Except.ok rows := by
  unfold pipelineRows
  simp [hts, hbg, har, exceptOkBind]

theorem core_records_empty (env : Env) (d : ℕ) (records : List RawRecord)
    (c : Bool) (db0 : DB) (jw : ℕ) (hp : (c && env.purgeFails) = false)
    (hne : records.isEmpty = true) :
    processDayFileCore env d records c db0 jw
      = ⟨db0, false, false, false, false, false, 0, 0, jw⟩ := by
  unfold processDayFileCore
  simp [hp, hne]

theorem core_sort_error (env : Env) (d : ℕ) (records : List RawRecord)
    (c : Bool) (db0 : DB) (jw : ℕ) (e : String)
    (hp : (c && env.purgeFails) = false) (hne : records.isEmpty = false)
    (hts : trySort records = Except.error e) :
    processDayFileCore env d records c db0 jw
      = ⟨db0, false, false, true, false, false, 0, 0, jw⟩ := by
  unfold processDayFileCore
  simp [hp, hne, hts]

theorem core_bg_error (env : Env) (d : ℕ) (records sorted : List RawRecord)
    (c : Bool) (db0 : DB) (jw : ℕ) (e : String)
    (hp : (c && env.purgeFails) = false) (hne : records.isEmpty = false)
    (hts : trySort records = Except.ok sorted)
    (hbg : buildGroups sorted = Except.error e) :
    processDayFileCore env d records c db0 jw
      = ⟨db0, false, false, true, false, false, 0, 0, jw⟩ := by
  unfold processDayFileCore
  simp [hp, hne, hts, hbg]

theorem core_rows_error (env : Env) (d : ℕ) (records sorted : List RawRecord)
    (T : List (ℕ × TripRow)) (groups : List (ℕ × List RawRecord))
    (c : Bool) (db0 : DB) (jw : ℕ) (e : String)
    (hp : (c && env.purgeFails) = false) (hne : records.isEmpty = false)
    (hts : trySort records = Except.ok sorted)
    (hbg : buildGroups sorted = Except.ok (T, groups))
    (har : allTripRows groups = Except.error e) :
    processDayFileCore env d records c db0 jw
      = ⟨db0, false, false, true, !T.isEmpty,
          !T.isEmpty && env.tripInsertFails, 0, 0, jw⟩ := by
  unfold processDayFileCore
  simp [hp, hne, hts, hbg, har]

theorem core_rows_empty (env : Env) (d : ℕ) (records sorted : List RawRecord)
    (T : List (ℕ × TripRow)) (groups : List (ℕ × List RawRecord))
    (c : Bool) (db0 : DB) (jw : ℕ)
    (hp : (c && env.purgeFails) = false) (hne : records.isEmpty = false)
    (hts : trySort records = Except.ok sorted)
    (hbg : buildGroups sorted = Except.ok (T, groups))
    (har : allTripRows groups = Except.ok [])  :
    processDayFileCore env d records c db0 jw
      = ⟨db0, false, false, true, !T.isEmpty,
          !T.isEmpty && env.tripInsertFails, 0, 0, jw⟩ := by
  unfold processDayFileCore
  simp [hp, hne, hts, hbg, har]

theorem core_commit (d : ℕ) (records sorted : List RawRecord)
    (T : List (ℕ × TripRow)) (groups : List (ℕ × List RawRecord))
    (rows : List BCRow) (db0 : DB) (jw : ℕ)
    (hne : records.isEmpty = false)
    (hts : trySort records = Except.ok sorted)
    (hbg : buildGroups sorted = Except.ok (T, groups))
    (har : allTripRows groups = Except.ok rows)
    (hrows : rows.isEmpty = false) :
    processDayFileCore okEnv d records true db0 jw
      = ⟨⟨insertTrips db0.trips (T.map Prod.snd),
          db0.crumbs.filter (fun r => r.tstamp.ord != d) ++ rows⟩,
         true, false, false, !T.isEmpty, false,
         (chunks1000 rows).length, 0, jw⟩ := by
  unfold processDayFileCore
  have hpu : (true && okEnv.purgeFails) = false := rfl
  have hti : okEnv.tripInsertFails = false := rfl
  have hib := insertBatches_all_ok okEnv (fun _ => rfl)
  by_cases hT : T.isEmpty = true
  · have hTnil : T = [] := List.isEmpty_iff.mp hT
    subst hTnil
    simp [hpu, hne, hts, hbg, har, hrows, hti, hib, insertTrips]
  · simp [hpu, hne, hts, hbg, har, hrows, hT, hti, hib]

/-- C2 amended: re-running the full transform for the same calendar date
with the same input file is idempotent *provided every staged breadcrumb's
decoded timestamp falls on the processing date*: the purge then removes
exactly the previously inserted rows before they are re-inserted, and
trip rows are insert-or-ignore on `trip_id`, so a second run reproduces
the single-run store.  (Rows whose `ACT_TIME` rolls past midnight escape
the purge window and are duplicated — see the counterexample.) -/
theorem c2_amended_idempotent (d : ℕ) (lines : List (Option RawRecord))
    (db0 : DB)
    (hdate : ∀ r ∈ rowsOr (pipelineRows lines.reduceOption),
      r.tstamp.ord = d) :
    (process_day_file okEnv d (some lines) true
        (process_day_file okEnv d (some lines) true db0).db).db
      = (process_day_file okEnv d (some lines) true db0).db := by
  have hcore : ∀ db' : DB, process_day_file okEnv d (some lines) true db'
      = processDayFileCore okEnv d lines.reduceOption true db'
          (lines.countP (fun o => o.isNone)) := fun _ => rfl
  simp only [hcore]
  have hpo : (true && okEnv.purgeFails) = false := rfl
  by_cases hne : lines.reduceOption.isEmpty = true
  · have h1 := fun db' =>
      core_records_empty okEnv d lines.reduceOption true db'
        (lines.countP (fun o => o.isNone)) hpo hne
    simp only [h1]
  · rw [Bool.not_eq_true] at hne
    cases hts : trySort lines.reduceOption with
    | error e =>
      have h1 := fun db' =>
        core_sort_error okEnv d lines.reduceOption true db'
          (lines.countP (fun o => o.isNone)) e hpo hne hts
      simp only [h1]
    | ok sorted =>
      cases hbg : buildGroups sorted with
      | error e =>
        have h1 := fun db' =>
          core_bg_error okEnv d lines.reduceOption sorted true db'
            (lines.countP (fun o => o.isNone)) e hpo hne hts hbg
        simp only [h1]
      | ok TG =>
        obtain ⟨T, groups⟩ := TG
        cases har : allTripRows groups with
        | error e =>
          have h1 := fun db' =>
            core_rows_error okEnv d lines.reduceOption sorted T groups true
              db' (lines.countP (fun o => o.isNone)) e hpo hne hts hbg har
          simp only [h1]
        | ok rows =>
          by_cases hrows : rows.isEmpty = true
          · have hrnil : rows = [] := List.isEmpty_iff.mp hrows
            subst hrnil
            have h1 := fun db' =>
              core_rows_empty okEnv d lines.reduceOption sorted T groups true
                db' (lines.countP (fun o => o.isNone)) hpo hne hts hbg har
            simp only [h1]
          · rw [Bool.not_eq_true] at hrows
            have hall : ∀ r ∈ rows, r.tstamp.ord = d := by
              have hpl := pipelineRows_eq lines.reduceOption sorted T groups
                rows hts hbg har
              rw [hpl] at hdate
              simpa [rowsOr] using hdate
            have h1 := fun db' =>
              core_commit d lines.reduceOption sorted T groups rows db'
                (lines.countP (fun o => o.isNone)) hne hts hbg har hrows
            simp only [h1]
            simp only [DB.mk.injEq]
            constructor
            · exact insertTrips_idem db0.trips (T.map Prod.snd)
            · rw [List.filter_append, filter_ne_idem,
                filter_eq_date_nil d rows hall, List.append_nil]

unseal Rat.mul Rat.add Rat.sub Rat.inv in
/-- C2 amended witness: a same-day two-point trip is loaded identically by
one run and by two runs. -/
theorem c2_amended_idempotent_witness :
    (∀ r ∈ rowsOr (pipelineRows [some rA, some rB].reduceOption),
      r.tstamp.ord = d25)
    ∧ (process_day_file okEnv d25 (some [some rA, some rB]) true
          (process_day_file okEnv d25 (some [some rA, some rB]) true
            emptyDB).db).db
        = (process_day_file okEnv d25 (some [some rA, some rB]) true
            emptyDB).db :=
  ⟨by decide, c2_amended_idempotent d25 [some rA, some rB] emptyDB (by decide)⟩

/-! ### Lemmas for the trip-aggregator claim -/

theorem trySort_ok (records sorted : List RawRecord)
    (h : trySort records = Except.ok sorted) :
    records.all (fun r => r.trip.isSome && r.act.isSome) = true
    ∧ sorted = List.insertionSort keyLE records := by
  unfold trySort at h
  by_cases hall : records.all (fun r => r.trip.isSome && r.act.isSome) = true
  · rw [if_pos hall] at h
    exact ⟨hall, ((Except.ok.injEq _ _).mp h).symm⟩
  · rw [if_neg hall] at h
    cases h

theorem filter_orderedInsert_pos (p : RawRecord → Bool) (a : RawRecord)
    (hpa : p a = true) (hrel : ∀ b : RawRecord, p b = true → keyLE a b) :
    ∀ l : List RawRecord,
      (List.orderedInsert keyLE a l).filter p = a :: l.filter p := by
  intro l
  induction l with
  | nil => simp [List.orderedInsert, hpa]
  | cons b l ih =>
    by_cases hab : keyLE a b
    · rw [List.orderedInsert, if_pos hab]
      simp [hpa]
    · have hpb : p b = false := by
        cases hb : p b
        · rfl
        · exact absurd (hrel b hb) hab
      rw [List.orderedInsert, if_neg hab]
      simp [hpb, ih]

theorem filter_orderedInsert_neg (p : RawRecord → Bool) (a : RawRecord)
    (hpa : p a = false) :
    ∀ l : List RawRecord,
      (List.orderedInsert keyLE a l).filter p = l.filter p := by
  intro l
  induction l with
  | nil => simp [List.orderedInsert, hpa]
  | cons b l ih =>
    by_cases hab : keyLE a b
    · rw [List.orderedInsert, if_pos hab]
      simp [hpa]
    · rw [List.orderedInsert, if_neg hab]
      by_cases hpb : p b = true <;> simp [hpb, ih, hpa]

theorem filter_insertionSort_key (p : RawRecord → Bool)
    (hcl : ∀ a b : RawRecord, p a = true → p b = true → keyLE a b) :
    ∀ l : List RawRecord,
      (List.insertionSort keyLE l).filter p = l.filter p := by
  intro l
  induction l with
  | nil => rfl
  | cons a l ih =>
    show (List.orderedInsert keyLE a (List.insertionSort keyLE l)).filter p
      = (a :: l).filter p
    by_cases hpa : p a = true
    · rw [filter_orderedInsert_pos p a hpa (fun b hb => hcl a b hpa hb), ih]
      simp [hpa]
    · rw [Bool.not_eq_true] at hpa
      rw [filter_orderedInsert_neg p a hpa, ih]
      simp [hpa]

theorem keyLE_fst {a b : RawRecord} (h : keyLE a b) :
    (keyOf a).1 ≤ (keyOf b).1 := by
  unfold keyLE at h
  omega

theorem buildStep_cases (acc : List (ℕ × TripRow) × List (ℕ × List RawRecord))
    (bc : RawRecord)
    (res : List (ℕ × TripRow) × List (ℕ × List RawRecord))
    (h : buildStep acc bc = Except.ok res) :
    ∃ tid : ℕ, bc.trip = some tid ∧ res.2 = pushGroup tid bc acc.2
      ∧ (((acc.1.lookup tid).isSome ∧ res.1 = acc.1)
        ∨ (acc.1.lookup tid = none
          ∧ ∃ trow : TripRow, buildTrip tid bc = Except.ok trow
              ∧ res.1 = acc.1 ++ [(tid, trow)])) := by
  unfold buildStep at h
  cases htr : bc.trip with
  | none => rw [htr] at h; simp [getF, exceptErrorBind] at h
  | some tid =>
    rw [htr] at h
    simp only [getF, exceptOkBind] at h
    refine ⟨tid, rfl, ?_⟩
    by_cases hlk : (acc.1.lookup tid).isSome = true
    · rw [if_pos hlk] at h
      have := (Except.ok.injEq _ _).mp h
      exact ⟨by rw [← this], Or.inl ⟨hlk, by rw [← this]⟩⟩
    · rw [if_neg hlk] at h
      cases hbt : buildTrip tid bc with
      | error e => rw [hbt] at h; simp [exceptErrorBind] at h
      | ok trow =>
        rw [hbt] at h
        simp only [exceptOkBind] at h
        have := (Except.ok.injEq _ _).mp h
        refine ⟨by rw [← this], Or.inr ⟨?_, trow, rfl, by rw [← this]⟩⟩
        cases hv : acc.1.lookup tid
        · rfl
        · rw [hv] at hlk; simp at hlk

theorem buildFold_lookup_mono :
    ∀ (l : List RawRecord)
      (acc : List (ℕ × TripRow) × List (ℕ × List RawRecord))
      (T : List (ℕ × TripRow)) (G : List (ℕ × List RawRecord)),
      l.foldlM buildStep acc = Except.ok (T, G) →
      ∀ (tid : ℕ) (v : TripRow), acc.1.lookup tid = some v →
        T.lookup tid = some v := by
  intro l
  induction l with
  | nil =>
    intro acc T G h tid v hv
    simp only [List.foldlM_nil, pure, Except.pure, Except.ok.injEq] at h
    rw [h] at hv
    exact hv
  | cons bc l ih =>
    intro acc T G h tid v hv
    rw [List.foldlM_cons] at h
    cases hstep : buildStep acc bc with
    | error e => rw [hstep] at h; simp [exceptErrorBind] at h
    | ok acc1 =>
      rw [hstep] at h
      simp only [exceptOkBind] at h
      apply ih acc1 T G h tid v
      obtain ⟨tid0, _, _, hcase⟩ := buildStep_cases acc bc acc1 hstep
      rcases hcase with ⟨_, heq⟩ | ⟨_, trow, _, heq⟩
      · rw [heq]; exact hv
      · rw [heq, List.lookup_append, hv]; rfl

theorem buildFold_lookup_new :
    ∀ (l : List RawRecord)
      (acc : List (ℕ × TripRow) × List (ℕ × List RawRecord))
      (T : List (ℕ × TripRow)) (G : List (ℕ × List RawRecord)),
      l.foldlM buildStep acc = Except.ok (T, G) →
      ∀ tid : ℕ, acc.1.lookup tid = none →
        (match l.find? (fun r => r.trip == some tid) with
          | some bc => ∃ trow : TripRow,
              buildTrip tid bc = Except.ok trow ∧ T.lookup tid = some trow
          | none => T.lookup tid = none) := by
  intro l
  induction l with
  | nil =>
    intro acc T G h tid hnone
    simp only [List.foldlM_nil, pure, Except.pure, Except.ok.injEq] at h
    simp only [List.find?_nil]
    rw [h] at hnone
    exact hnone
  | cons bc l ih =>
    intro acc T G h tid hnone
    rw [List.foldlM_cons] at h
    cases hstep : buildStep acc bc with
    | error e => rw [hstep] at h; simp [exceptErrorBind] at h
    | ok acc1 =>
      rw [hstep] at h
      simp only [exceptOkBind] at h
      obtain ⟨tid0, htr, _, hcase⟩ := buildStep_cases acc bc acc1 hstep
      by_cases hpred : (bc.trip == some tid) = true
      · have htid : tid0 = tid := by
          rw [htr] at hpred
          simpa using hpred
        subst htid
        simp only [List.find?]
        rw [hpred]
        simp only [cond_true]
        rcases hcase with ⟨hsome, _⟩ | ⟨_, trow, hbt, heq⟩
        · rw [hnone] at hsome; simp at hsome
        · refine ⟨trow, hbt, ?_⟩
          apply buildFold_lookup_mono l acc1 T G h
          rw [heq, List.lookup_append, hnone]
          simp [List.lookup_cons_self]
      · have htid : tid0 ≠ tid := by
          intro hcontra
          rw [htr, hcontra] at hpred
          simp at hpred
        have hpred2 : (bc.trip == some tid) = false := by
          simpa using hpred
        simp only [List.find?]
        rw [hpred2]
        simp only [cond_false]
        apply ih acc1 T G h tid
        rcases hcase with ⟨_, heq⟩ | ⟨_, trow, _, heq⟩
        · rw [heq]; exact hnone
        · rw [heq, List.lookup_append, hnone]
          have hbne : (tid == tid0) = false := by
            simp only [beq_eq_false_iff_ne, ne_eq]
            exact fun hc => htid hc.symm
          simp [List.lookup_cons, hbne]

theorem buildFold_nodup :
    ∀ (l : List RawRecord)
      (acc : List (ℕ × TripRow) × List (ℕ × List RawRecord))
      (T : List (ℕ × TripRow)) (G : List (ℕ × List RawRecord)),
      l.foldlM buildStep acc = Except.ok (T, G) →
      (acc.1.map Prod.fst).Nodup → (T.map Prod.fst).Nodup := by
  intro l
  induction l with
  | nil =>
    intro acc T G h hnd
    simp only [List.foldlM_nil, pure, Except.pure, Except.ok.injEq] at h
    rw [h] at hnd
    exact hnd
  | cons bc l ih =>
    intro acc T G h hnd
    rw [List.foldlM_cons] at h
    cases hstep : buildStep acc bc with
    | error e => rw [hstep] at h; simp [exceptErrorBind] at h
    | ok acc1 =>
      rw [hstep] at h
      simp only [exceptOkBind] at h
      apply ih acc1 T G h
      obtain ⟨tid0, _, _, hcase⟩ := buildStep_cases acc bc acc1 hstep
      rcases hcase with ⟨_, heq⟩ | ⟨hnone, trow, _, heq⟩
      · rw [heq]; exact hnd
      · rw [heq, List.map_append]
        simp only [List.map_cons, List.map_nil]
        rw [List.nodup_append]
        refine ⟨hnd, List.nodup_singleton _, ?_⟩
        intro x hx hx2
        simp only [List.mem_singleton] at hx2
        subst hx2
        rw [List.lookup_eq_none_iff] at hnone
        obtain ⟨p, hp, hfst⟩ := List.mem_map.mp hx
        have := hnone p hp
        rw [hfst] at this
        simp at this

theorem buildTrip_ok (tid : ℕ) (bc : RawRecord) (trow : TripRow)
    (h : buildTrip tid bc = Except.ok trow) :
    ∃ (opd : String) (y m dd v : ℕ), bc.opd = some opd
      ∧ tripDateParse opd = Except.ok (y, m, dd) ∧ bc.vehicle = some v
      ∧ trow = ⟨tid, none, v, serviceKeyOfDate y m dd, "Out"⟩ := by
  unfold buildTrip at h
  cases ho : bc.opd with
  | none => rw [ho] at h; simp [getF, exceptErrorBind] at h
  | some opd =>
    rw [ho] at h
    simp only [getF, exceptOkBind] at h
    cases hdp : tripDateParse opd with
    | error e => rw [hdp] at h; simp [exceptErrorBind] at h
    | ok ymd =>
      rw [hdp] at h
      simp only [exceptOkBind] at h
      cases hv : bc.vehicle with
      | none => rw [hv] at h; simp [getF, exceptErrorBind] at h
      | some v =>
        rw [hv] at h
        simp only [getF, exceptOkBind, pure, Except.pure,
          Except.ok.injEq] at h
        exact ⟨opd, ymd.1, ymd.2.1, ymd.2.2, v, rfl, hdp, rfl, h.symm⟩

/-- C8: the aggregator.  Sorting: the sorted batch is a permutation of
the input, ordered by the lexicographic `(trip_id, act_time)` key, stable
(records with any fixed key keep their input order), and trip groups are
never split (any record between two records of one trip belongs to that
trip).  Grouping: `trips_data` holds exactly one entry per distinct trip
id occurring in the batch, built by `buildTrip` from the *first* record
of that trip in sorted order — carrying that record's vehicle id and the
service-day classification of its operating date, with `route_id` unset
and direction `'Out'`. -/
theorem c8_aggregator :
    (∀ (records sorted : List RawRecord),
      trySort records = Except.ok sorted →
      sorted.Perm records
      ∧ sorted.Sorted keyLE
      ∧ (∀ k : ℕ × ℕ,
          sorted.filter (fun r => decide (keyOf r = k))
            = records.filter (fun r => decide (keyOf r = k)))
      ∧ (∀ (i j k2 : ℕ) (hi : i < sorted.length) (hj : j < sorted.length)
          (hk : k2 < sorted.length), i < j → j < k2 →
          (sorted.get ⟨i, hi⟩).trip = (sorted.get ⟨k2, hk⟩).trip →
          (sorted.get ⟨j, hj⟩).trip = (sorted.get ⟨i, hi⟩).trip))
    ∧ (∀ (sorted : List RawRecord) (T : List (ℕ × TripRow))
        (groups : List (ℕ × List RawRecord)),
        buildGroups sorted = Except.ok (T, groups) →
        (T.map Prod.fst).Nodup
        ∧ (∀ tid : ℕ,
            (T.lookup tid).isSome ↔ ∃ bc ∈ sorted, bc.trip = some tid)
        ∧ (∀ (tid : ℕ) (trow : TripRow), T.lookup tid = some trow →
            ∃ bc, sorted.find? (fun r => r.trip == some tid) = some bc
              ∧ ∃ (opd : String) (y m dd v : ℕ), bc.opd = some opd
                  ∧ tripDateParse opd = Except.ok (y, m, dd)
                  ∧ bc.vehicle = some v
                  ∧ trow = ⟨tid, none, v, serviceKeyOfDate y m dd, "Out"⟩)) := by
  constructor
  · intro records sorted hts
    obtain ⟨hall, hsorted⟩ := trySort_ok records sorted hts
    subst hsorted
    have hperm := List.perm_insertionSort keyLE records
    have hsort := List.sorted_insertionSort keyLE records
    refine ⟨hperm, hsort, ?_, ?_⟩
    · intro k
      apply filter_insertionSort_key
      intro a b ha hb
      have ha2 : keyOf a = k := of_decide_eq_true ha
      have hb2 : keyOf b = k := of_decide_eq_true hb
      unfold keyLE
      rw [ha2, hb2]
      omega
    · intro i j k2 hi hj hk hij hjk htrip
      set sorted := List.insertionSort keyLE records with hsd
      have htripOf : ∀ r ∈ sorted, r.trip = some ((keyOf r).1) := by
        intro r hr
        have hrmem : r ∈ records := hperm.mem_iff.mp hr
        have hok := List.all_eq_true.mp hall r hrmem
        cases htr2 : r.trip with
        | none => rw [htr2] at hok; simp at hok
        | some t => simp [keyOf, htr2]
      have hp := List.pairwise_iff_getElem.mp hsort
      have h1 : keyLE (sorted.get ⟨i, hi⟩) (sorted.get ⟨j, hj⟩) := by
        have := hp i j hi hj hij
        simpa [List.get_eq_getElem] using this
      have h2 : keyLE (sorted.get ⟨j, hj⟩) (sorted.get ⟨k2, hk⟩) := by
        have := hp j k2 hj hk hjk
        simpa [List.get_eq_getElem] using this
      have hti := htripOf _ (sorted.get_mem i hi)
      have htj := htripOf _ (sorted.get_mem j hj)
      have htk := htripOf _ (sorted.get_mem k2 hk)
      rw [hti, htk] at htrip
      have hik : (keyOf (sorted.get ⟨i, hi⟩)).1
          = (keyOf (sorted.get ⟨k2, hk⟩)).1 := by
        simpa using htrip
      have hf1 := keyLE_fst h1
      have hf2 := keyLE_fst h2
      rw [htj, hti]
      have : (keyOf (sorted.get ⟨j, hj⟩)).1
          = (keyOf (sorted.get ⟨i, hi⟩)).1 := by omega
      rw [this]
  · intro sorted T groups hbg
    unfold buildGroups at hbg
    refine ⟨buildFold_nodup sorted ([], []) T groups hbg (by simp), ?_, ?_⟩
    · intro tid
      have hnew := buildFold_lookup_new sorted ([], []) T groups hbg tid rfl
      constructor
      · intro hsome
        cases hfind : sorted.find? (fun r => r.trip == some tid) with
        | none =>
          rw [hfind] at hnew
          rw [hnew] at hsome
          simp at hsome
        | some bc =>
          refine ⟨bc, List.mem_of_find?_eq_some hfind, ?_⟩
          have := List.find?_some hfind
          simpa using this
      · intro hex
        obtain ⟨bc, hmem, htrip⟩ := hex
        have hfind : (sorted.find? (fun r => r.trip == some tid)).isSome :=
          List.find?_isSome.mpr ⟨bc, hmem, by simp [htrip]⟩
        obtain ⟨bc2, hbc2⟩ := Option.isSome_iff_exists.mp hfind
        rw [hbc2] at hnew
        obtain ⟨trow, _, hlk⟩ := hnew
        rw [hlk]
        rfl
    · intro tid trow hlk
      have hnew := buildFold_lookup_new sorted ([], []) T groups hbg tid rfl
      cases hfind : sorted.find? (fun r => r.trip == some tid) with
      | none =>
        rw [hfind] at hnew
        rw [hnew] at hlk
        cases hlk
      | some bc =>
        rw [hfind] at hnew
        obtain ⟨trow2, hbt, hlk2⟩ := hnew
        rw [hlk] at hlk2
        have heq2 : trow = trow2 := (Option.some.injEq _ _).mp hlk2
        subst heq2
        obtain ⟨opd, y, m, dd, v, ho, hdp, hv, heq⟩ :=
          buildTrip_ok tid bc trow hbt
        exact ⟨bc, rfl, opd, y, m, dd, v, ho, hdp, hv, heq⟩

/-- C8 witness: a concrete unsorted batch is sorted into its key order,
and the trips table holds one entry per distinct trip id, built from each
trip's first record (2022-12-25 is a Sunday). -/
theorem c8_aggregator_witness :
    trySort [rB, rA, rC] = Except.ok [rA, rB, rC]
    ∧ ([rA, rB, rC] : List RawRecord).Perm [rB, rA, rC]
    ∧ ([rA, rB, rC] : List RawRecord).Sorted keyLE
    ∧ buildGroups [rA, rB, rC]
        = Except.ok ([(1, ⟨1, none, 10, ServiceKey.Sunday, "Out"⟩),
                      (2, ⟨2, none, 11, ServiceKey.Sunday, "Out"⟩)],
                     [(1, [rA, rB]), (2, [rC])])
    ∧ ([(1, (⟨1, none, 10, ServiceKey.Sunday, "Out"⟩ : TripRow)),
        (2, ⟨2, none, 11, ServiceKey.Sunday, "Out"⟩)].map Prod.fst).Nodup :=
  ⟨by rfl,
    (c8_aggregator.1 [rB, rA, rC] [rA, rB, rC] (by rfl)).1,
    (c8_aggregator.1 [rB, rA, rC] [rA, rB, rC] (by rfl)).2.1,
    by rfl,
    (c8_aggregator.2 [rA, rB, rC]
      [(1, ⟨1, none, 10, ServiceKey.Sunday, "Out"⟩),
       (2, ⟨2, none, 11, ServiceKey.Sunday, "Out"⟩)]
      [(1, [rA, rB]), (2, [rC])] (by rfl)).1⟩

end BusData
